import Mathlib

set_option maxHeartbeats 1000000

namespace DnsRes

/-- Nanoseconds per second, the conversion factor between whole-second ttl
values and the Nat instants used to model std::time::Instant. -/
def nanosPerSec : Nat := 1000000000

/-- Modulus of the u32 type, used to model as-u32 casts. -/
def u32Mod : Nat := 4294967296

/-- A DNS name is modelled as its list of labels, leftmost (most specific)
label first, as in hickory Name. -/
abbrev DnsName := List String

/-- Canonical (lowercased) form of one label. -/
def canonLabel (s : String) : List Char := s.data.map Char.toLower

/-- Canonical (lowercased) form of a name, modelling the case-insensitive
comparison of hickory Name. -/
def canon (n : DnsName) : List (List Char) := n.map canonLabel

/-- Case-insensitive name equality (hickory Name equality). -/
def nameEq (a b : DnsName) : Bool := decide (canon a = canon b)

/-- hickory Name::zone_of: self is an ancestor of, or equal to, other,
case-insensitively; on label lists this is the suffix relation. -/
def zone_of (self other : DnsName) : Bool := (canon self).isSuffixOf (canon other)

/-- hickory Name::base_name: strip the leftmost label. -/
def base_name : DnsName → DnsName
  | [] => []
  | _ :: rest => rest

/-- hickory Name::num_labels. -/
def num_labels (n : DnsName) : Nat := n.length

/-- DNS record types used by the resolver core. -/
inductive RecordType where
  | A
  | AAAA
  | NS
deriving DecidableEq

/-- Record data. A records carry an IPv4 address (modelled as a Nat), AAAA an
IPv6 address, NS a target name. -/
inductive RData where
  | A (addr : Nat)
  | AAAA (addr : Nat)
  | NS (target : DnsName)
deriving DecidableEq

/-- A DNS record: owner name, record type, ttl (u32 seconds) and optional
rdata, as in hickory Record. The record type field is stored separately from
the rdata and the two can in principle disagree. -/
structure Record where
  name : DnsName
  record_type : RecordType
  ttl : Nat
  data : Option RData
deriving DecidableEq

/-- Cache key from src/cache.rs: a (name, record type) pair. -/
structure Query where
  to_resolve : DnsName
  record_type : RecordType
deriving DecidableEq

/-- Canonical form of a query key; equality of canonical forms models the
derived case-insensitive Hash and Eq of Query. -/
def canonQ (q : Query) : List (List Char) × RecordType := (canon q.to_resolve, q.record_type)

/-- Boolean equality of queries, comparing canonical forms. -/
def queryBeq (a b : Query) : Bool := decide (canonQ a = canonQ b)

instance : BEq Query := ⟨queryBeq⟩

/-- Cache value together with its absolute expiry instant
(ValueWithTTL in src/cache.rs). -/
structure ValueWithTTL (V : Type) where
  value : V
  valid_before : Nat
deriving DecidableEq

/-- The TTL-aware LRU cache of src/cache.rs, modelled as the list of live
entries in most-recently-used-first order together with the capacity. The
backing LruCache keeps at most one entry per key. -/
structure Cache (K V : Type) where
  capacity : Nat
  entries : List (K × ValueWithTTL V)
deriving DecidableEq

/-- Cache::new. The Rust capacity is a NonZeroUsize. -/
def Cache.new {K V : Type} (capacity : Nat) : Cache K V := ⟨capacity, []⟩

/-- Cache::store_with_ttl: LruCache::put, inserting or replacing the key at
the most-recently-used position, evicting the least-recently-used entry when
a new key is inserted at capacity. -/
def Cache.store_with_ttl {K V : Type} [BEq K] (c : Cache K V) (key : K) (value : V)
    (valid_before : Nat) : Cache K V :=
  { c with entries :=
      ((key, ⟨value, valid_before⟩) :: c.entries.filter (fun p => !(p.1 == key))).take c.capacity }

/-- Cache::get_with_remaining_ttl: on a hit, if the entry has expired (its
valid_before is less than now) it is popped and nothing is returned;
otherwise a clone of the value and the remaining duration are returned and
the entry is promoted to most recently used. -/
def Cache.get_with_remaining_ttl {K V : Type} [BEq K] (c : Cache K V) (key : K)
    (now : Nat) : Option (V × Nat) × Cache K V :=
  match c.entries.find? (fun p => p.1 == key) with
  | none => (none, c)
  | some p =>
    if p.2.valid_before < now then
      (none, { c with entries := c.entries.filter (fun q => !(q.1 == key)) })
    else
      (some (p.2.value, p.2.valid_before - now),
       { c with entries := p :: c.entries.eraseP (fun q => q.1 == key) })

/-- The DNS cache maps queries to record lists. -/
abbrev DnsCache := Cache Query (List Record)

/-- Minimum ttl over a record list, 0 for the empty list, as computed by
DnsCache::store via min().unwrap_or(0). -/
def min_ttl : List Record → Nat
  | [] => 0
  | [r] => r.ttl
  | r :: rest => min r.ttl (min_ttl rest)

/-- DnsCache::store: suppress the write when the minimum ttl is 0, otherwise
store with expiry now plus min_ttl seconds. -/
def DnsCache.store (c : DnsCache) (query : Query) (value : List Record) (now : Nat) : DnsCache :=
  if min_ttl value = 0 then c
  else Cache.store_with_ttl c query value (now + min_ttl value * nanosPerSec)

/-- get_ns_name from src/selector.rs, imported by src/cache.rs: the rdata
target name of an NS record, or an error for a non-NS record or missing or
inconsistent rdata. -/
def get_ns_name (record : Record) : Except String DnsName :=
  if record.record_type ≠ RecordType.NS then Except.error (r"Record type not NS")
  else
    match record.data with
    | some (RData.NS ns) => Except.ok ns
    | some _ => Except.error (r"wrong type of rdata")
    | none => Except.error (r"No rdata")

/-- Insert one record into the group for the given (name, type) key, keeping
first-encounter key order; models HashMap entry().or_insert_with().push(). -/
def insertGroup : List (Query × List Record) → Query → Record → List (Query × List Record)
  | [], q, r => [(q, [r])]
  | (q', rs) :: rest, q, r =>
    if q' == q then (q', rs ++ [r]) :: rest else (q', rs) :: insertGroup rest q r

/-- make_referral_query from src/cache.rs: bin records by their (name, type)
key. The HashMap iteration order is abstracted as first-encounter key order. -/
def make_referral_query (records : List Record) : List (Query × List Record) :=
  if records.isEmpty then []
  else records.foldl (fun acc r => insertGroup acc ⟨r.name, r.record_type⟩ r) []

/-- Loop of eligible over the name server records: collect the rdata NS
target names (the HashSet of Name::to_string values is modelled as the list
of the names themselves, compared canonically) and fail on the first owner
name that is not an ancestor of to_resolve. -/
def eligibleNsLoop (to_resolve : DnsName) : List Record → List DnsName → Option (List DnsName)
  | [], names => some names
  | r :: rest, names =>
    let names' := match r.data with
      | some (RData.NS ns) => ns :: names
      | _ => names
    if zone_of r.name to_resolve then eligibleNsLoop to_resolve rest names' else none

/-- eligible from src/cache.rs: the poisoning-resistance check for referrals.
Every name server owner must be an ancestor of the name being resolved and
every glue owner must be among the NS target names. -/
def eligible (name_servers glue : List Record) (to_resolve : DnsName) : Bool :=
  match eligibleNsLoop to_resolve name_servers [] with
  | none => false
  | some names => glue.all (fun g => names.any (fun t => nameEq g.name t))

/-- DnsCache::store_referral: validate eligibility, then store each
(name, type) group of the name server records and of the glue records. -/
def DnsCache.store_referral (c : DnsCache) (name_servers glue : List Record)
    (to_resolve : DnsName) (now : Nat) : DnsCache :=
  if eligible name_servers glue to_resolve then
    let c1 := (make_referral_query name_servers).foldl
      (fun acc p => DnsCache.store acc p.1 p.2 now) c
    (make_referral_query glue).foldl (fun acc p => DnsCache.store acc p.1 p.2 now) c1
  else c

/-- update_ttl from src/cache.rs: copy the records, replacing each ttl with
the whole-seconds value of the remaining duration, cast to u32. -/
def update_ttl (item : List Record × Nat) : List Record :=
  item.1.map (fun r => { r with ttl := item.2 / nanosPerSec % u32Mod })

/-- DnsCache::get_and_update_ttl: a cache read whose returned records carry
the remaining lifetime in their ttl fields. -/
def DnsCache.get_and_update_ttl (c : DnsCache) (query : Query) (now : Nat) :
    Option (List Record) × DnsCache :=
  let res := Cache.get_with_remaining_ttl c query now
  (res.1.map (fun vd => update_ttl vd), res.2)

/-- CacheResponse from src/cache.rs. -/
inductive CacheResponse where
  | Authoritative (records : List Record)
  | Referral (ns glue : List Record)
  | None
deriving DecidableEq

/-- Body of the while loop of parents: push each nonempty proper suffix
obtained by repeatedly stripping the leftmost label. -/
def parentsLoop : DnsName → List DnsName
  | [] => []
  | l :: rest => (l :: rest) :: parentsLoop rest

/-- parents from src/cache.rs: the strict ancestors of a name, most specific
first, stopping before the zero-label root. -/
def parents (name : DnsName) : List DnsName := parentsLoop (base_name name)

/-- DnsCache::fetch_glue: for each name server record whose NS target name
can be extracted, look up (target, A) and concatenate the records found;
the cache state is threaded through the lookups. -/
def DnsCache.fetch_glue (c : DnsCache) (name_servers : List Record) (now : Nat) :
    List Record × DnsCache :=
  match name_servers with
  | [] => ([], c)
  | ns :: rest =>
    match get_ns_name ns with
    | Except.ok name =>
      match DnsCache.get_and_update_ttl c ⟨name, RecordType.A⟩ now with
      | (some records, c1) =>
        match DnsCache.fetch_glue c1 rest now with
        | (restRecords, c2) => (records ++ restRecords, c2)
      | (none, c1) => DnsCache.fetch_glue c1 rest now
    | Except.error _ => DnsCache.fetch_glue c rest now

/-- Loop of get_best_record over the parents of the query name: the first NS
hit produces a referral together with its fetched glue. -/
def getBestLoop (c : DnsCache) (ps : List DnsName) (now : Nat) : CacheResponse × DnsCache :=
  match ps with
  | [] => (CacheResponse.None, c)
  | p :: rest =>
    match DnsCache.get_and_update_ttl c ⟨p, RecordType.NS⟩ now with
    | (some records, c1) =>
      match DnsCache.fetch_glue c1 records now with
      | (glue, c2) => (CacheResponse.Referral records glue, c2)
    | (none, c1) => getBestLoop c1 rest now

/-- DnsCache::get_best_record: an exact hit gives Authoritative; otherwise
the first parent with a cached NS entry gives a Referral; otherwise None. -/
def DnsCache.get_best_record (c : DnsCache) (query : Query) (now : Nat) :
    CacheResponse × DnsCache :=
  match DnsCache.get_and_update_ttl c query now with
  | (some records, c1) => (CacheResponse.Authoritative records, c1)
  | (none, c1) => getBestLoop c1 (parents query.to_resolve) now

/-- Strict ancestors of a name from most specific to least specific, stopping
before the root; written from the wording of the specification, for
comparison with parents. -/
def strict_ancestors (n : DnsName) : List DnsName :=
  (List.range' 1 (n.length - 1)).map (fun k => n.drop k)

/-- View of a single cache read, ignoring the cache state update. -/
def lookup_records (c : DnsCache) (q : Query) (now : Nat) : Option (List Record) :=
  (DnsCache.get_and_update_ttl c q now).1

/-- Glue assembly as worded in the specification: for each NS record in
order, extract its target name, look up (target, A) in the cache and
concatenate the records found. -/
def glue_spec (c : DnsCache) (ns : List Record) (now : Nat) : List Record :=
  ns.flatMap (fun r =>
    match get_ns_name r with
    | Except.ok t => (lookup_records c ⟨t, RecordType.A⟩ now).getD []
    | Except.error _ => [])

/-- get_best_record as worded in the specification: an exact hit gives
Authoritative, otherwise the first strict ancestor with a cached NS entry
gives a Referral whose glue is assembled per NS record, otherwise None. -/
def get_best_record_spec (c : DnsCache) (q : Query) (now : Nat) : CacheResponse :=
  match lookup_records c q now with
  | some records => CacheResponse.Authoritative records
  | none =>
    match (strict_ancestors q.to_resolve).findSome?
        (fun p => lookup_records c ⟨p, RecordType.NS⟩ now) with
    | some records => CacheResponse.Referral records (glue_spec c records now)
    | none => CacheResponse.None

/-- The rdata NS target names of a record list, as collected by eligible. -/
def ns_targets (name_servers : List Record) : List DnsName :=
  name_servers.filterMap (fun r =>
    match r.data with
    | some (RData.NS t) => some t
    | _ => none)

/-- Every live cache entry holds a non-empty record list. -/
def nonEmptyEntries (c : DnsCache) : Prop :=
  ∀ p ∈ c.entries, p.2.value ≠ []

/-- IP addresses, v4 or v6 (the source uses std::net::IpAddr). -/
inductive IpAddr where
  | v4 (addr : Nat)
  | v6 (addr : Nat)
deriving DecidableEq

/-- Target from src/target.rs. -/
inductive Target where
  | Ip (ip : IpAddr)
  | Name (name : DnsName)
deriving DecidableEq

/-- ResolutionError from src/resolver.rs. -/
inductive ResolutionError where
  | NxDomain
  | ServFail (msg : String)
  | IoError
  | ProtocolError
deriving DecidableEq

/-- The result is a ServFail error. -/
def isServFail {α : Type} (e : Except ResolutionError α) : Prop :=
  ∃ s, e = Except.error (ResolutionError.ServFail s)

/-- find_in_glue from src/target.rs: the first glue record of type A whose
owner name equals the wanted name and which carries A rdata gives the
address. -/
def find_in_glue (name : DnsName) (glue : List Record) : Option IpAddr :=
  ((glue.filter (fun r => decide (r.record_type = RecordType.A))).filter
      (fun r => nameEq r.name name)).findSome?
    (fun r => match r.data with
      | some (RData.A a) => some (IpAddr.v4 a)
      | _ => none)

/-- get_name_if_ns from src/target.rs: none for a record whose type is not
NS, otherwise the NS target name or an error for missing or inconsistent
rdata. -/
def get_name_if_ns (record : Record) : Option (Except ResolutionError DnsName) :=
  if record.record_type ≠ RecordType.NS then none
  else
    match record.data with
    | some (RData.NS ns) => some (Except.ok ns)
    | some _ => some (Except.error (ResolutionError.ServFail (r"inconsistent rdata type")))
    | none => some (Except.error (ResolutionError.ServFail (r"no rdata")))

/-- get_target from src/target.rs. -/
def get_target (ns : Record) (glue : List Record) : Except ResolutionError Target :=
  match get_name_if_ns ns with
  | none =>
    Except.error (ResolutionError.ServFail (r"inconsistent data, NsProvider was fed a non-ns record"))
  | some (Except.error e) => Except.error e
  | some (Except.ok name) =>
    match find_in_glue name glue with
    | some ip => Except.ok (Target.Ip ip)
    | none => Except.ok (Target.Name name)

/-- Vec::pop: remove and return the last element. -/
def popLast {α : Type} (l : List α) : Option (List α × α) :=
  match l.getLast? with
  | none => none
  | some x => some (l.dropLast, x)

/-- NsProvider from src/target.rs: the shuffled NS records of a referral
together with its glue records. -/
structure NsProvider where
  shuffled_nameservers : List Record
  glue : List Record
deriving DecidableEq

/-- NsProvider::new: filter the name server records to those whose type is NS
and shuffle them. The shuffle outcome is a parameter of the model. -/
def NsProvider.new (shuffle : List Record → List Record) (nameservers glue : List Record) :
    NsProvider :=
  ⟨shuffle (nameservers.filter (fun r => decide (r.record_type = RecordType.NS))), glue⟩

/-- NsProvider::next: pop the next NS record and derive a target from it. -/
def NsProvider.next (p : NsProvider) : Except ResolutionError (Option Target) × NsProvider :=
  match popLast p.shuffled_nameservers with
  | none => (Except.ok none, p)
  | some (init, ns) =>
    match get_target ns p.glue with
    | Except.error e => (Except.error e, ⟨init, p.glue⟩)
    | Except.ok t => (Except.ok (some t), ⟨init, p.glue⟩)

/-- The two target providers of src/target.rs, as one closed type. -/
inductive Candidates where
  | roots (shuffled_pointers : List IpAddr)
  | nsp (p : NsProvider)
deriving DecidableEq

/-- RootsProvider::new, with the shuffle outcome a parameter of the model. -/
def RootsProvider.new (shuffle : List IpAddr → List IpAddr) (roots : List IpAddr) : Candidates :=
  Candidates.roots (shuffle roots)

/-- next on either provider. -/
def candidatesNext : Candidates → Except ResolutionError (Option Target) × Candidates
  | Candidates.roots ips =>
    match popLast ips with
    | none => (Except.ok none, Candidates.roots ips)
    | some (init, ip) => (Except.ok (some (Target.Ip ip)), Candidates.roots init)
  | Candidates.nsp p =>
    match NsProvider.next p with
    | (r, p1) => (r, Candidates.nsp p1)

/-- DNS response codes relevant to the resolver. -/
inductive ResponseCode where
  | NoError
  | NXDomain
  | FormErr
  | ServFail
deriving DecidableEq

/-- A decoded DNS message: the header authoritative flag, the response code
and the three record sections used by the resolver. -/
structure Message where
  authoritative : Bool
  response_code : ResponseCode
  answers : List Record
  name_servers : List Record
  additionals : List Record
deriving DecidableEq

/-- is_final from src/resolver.rs. -/
def is_final (answer : Message) : Bool :=
  answer.authoritative && !answer.answers.isEmpty

/-- first_ip from src/resolver.rs: pop the last record of the result and
require A rdata. -/
def first_ip (result : List Record) : Except ResolutionError IpAddr :=
  match result.getLast? with
  | none => Except.error (ResolutionError.ServFail (r"unexpected empty result"))
  | some record =>
    match record.data with
    | some (RData.A a) => Except.ok (IpAddr.v4 a)
    | _ => Except.error (ResolutionError.ServFail (r"no rdata, or wrong type of rdata"))

/-- MAX_RECURSION_DEPTH from src/resolver.rs. -/
def MAX_RECURSION_DEPTH : Nat := 5

/-- Environment of a resolution: the backend, the root addresses, the shuffle
outcomes of the two providers and the current instant. -/
structure ResEnv where
  backend : IpAddr → DnsName → RecordType → Except ResolutionError Message
  roots : List IpAddr
  shuffleRecords : List Record → List Record
  shuffleIps : List IpAddr → List IpAddr
  now : Nat

/-- Per-query resolution state: the seen list, the shared cache and a log of
the backend calls made, each tagged with the recursion depth it was made
at. -/
structure ResState where
  seen : List (DnsName × RecordType)
  cache : DnsCache
  trace : List (Nat × IpAddr × DnsName × RecordType)
deriving DecidableEq

/-- Membership in the seen list, with the case-insensitive tuple equality of
(Name, RecordType). -/
def seenContains (seen : List (DnsName × RecordType)) (k : DnsName × RecordType) : Bool :=
  seen.any (fun p => nameEq p.1 k.1 && decide (p.2 = k.2))

mutual

/-- ResolutionState::resolve_inner from src/resolver.rs. The fuel argument is
an artifact of the embedding bounding the number of steps; exhausted fuel is
reported as a ServFail. -/
def resolve_inner (env : ResEnv) (fuel : Nat) (st : ResState) (to_resolve : DnsName)
    (record_type : RecordType) (depth : Nat) :
    Except ResolutionError (List Record) × ResState :=
  match fuel with
  | 0 => (Except.error (ResolutionError.ServFail (r"model out of fuel")), st)
  | fuel1 + 1 =>
    if MAX_RECURSION_DEPTH < depth then
      (Except.error (ResolutionError.ServFail (r"Refusing to recurse deeper than 5")), st)
    else if seenContains st.seen (to_resolve, record_type) then
      (Except.error (ResolutionError.ServFail (r"Broken DNS config, seen twice")), st)
    else
      let st1 : ResState := { st with seen := st.seen ++ [(to_resolve, record_type)] }
      match DnsCache.get_best_record st1.cache ⟨to_resolve, record_type⟩ env.now with
      | (CacheResponse.Authoritative records, c1) => (Except.ok records, { st1 with cache := c1 })
      | (CacheResponse.Referral ns glue, c1) =>
        resolve_loop env fuel1 { st1 with cache := c1 }
          (Candidates.nsp (NsProvider.new env.shuffleRecords ns glue)) to_resolve record_type depth
      | (CacheResponse.None, c1) =>
        resolve_loop env fuel1 { st1 with cache := c1 }
          (RootsProvider.new env.shuffleIps env.roots) to_resolve record_type depth
termination_by structural fuel

/-- ResolutionState::target_to_ip from src/resolver.rs: an Ip target is used
as is, a Name target triggers a sub-resolution of (name, A) at depth plus
one whose result is fed to first_ip. Only the Name branch consumes fuel. -/
def target_to_ip (env : ResEnv) (fuel : Nat) (st : ResState) (target : Target) (depth : Nat) :
    Except ResolutionError IpAddr × ResState :=
  match target with
  | Target.Ip ip => (Except.ok ip, st)
  | Target.Name name =>
    match fuel with
    | 0 => (Except.error (ResolutionError.ServFail (r"model out of fuel")), st)
    | fuel1 + 1 =>
      match resolve_inner env fuel1 st name RecordType.A (depth + 1) with
      | (Except.error e, st1) => (Except.error e, st1)
      | (Except.ok records, st1) => (first_ip records, st1)
termination_by structural fuel

/-- The candidate loop of resolve_inner: pop a target, convert it to an IP,
query the backend and classify the response; referrals are stored and
replace the candidate provider, answers are stored and returned. -/
def resolve_loop (env : ResEnv) (fuel : Nat) (st : ResState) (cands : Candidates)
    (to_resolve : DnsName) (record_type : RecordType) (depth : Nat) :
    Except ResolutionError (List Record) × ResState :=
  match fuel with
  | 0 => (Except.error (ResolutionError.ServFail (r"model out of fuel")), st)
  | fuel1 + 1 =>
    match candidatesNext cands with
    | (Except.error e, _) => (Except.error e, st)
    | (Except.ok Option.none, _) =>
      (Except.error (ResolutionError.ServFail (r"no more nameservers to try")), st)
    | (Except.ok (some target), _cands1) =>
      match target_to_ip env fuel1 st target depth with
      | (Except.error e, st1) => (Except.error e, st1)
      | (Except.ok ip, st1) =>
        let st2 : ResState :=
          { st1 with trace := st1.trace ++ [(depth, ip, to_resolve, record_type)] }
        match env.backend ip to_resolve record_type with
        | Except.error e => (Except.error e, st2)
        | Except.ok message =>
          if message.response_code = ResponseCode.NXDomain then
            (Except.error ResolutionError.NxDomain, st2)
          else if is_final message then
            (Except.ok message.answers,
             { st2 with cache :=
                DnsCache.store st2.cache ⟨to_resolve, record_type⟩ message.answers env.now })
          else
            let c2 : DnsCache :=
              DnsCache.store_referral st2.cache message.name_servers message.additionals
                to_resolve env.now
            let st3 : ResState := { st2 with cache := c2 }
            resolve_loop env fuel1 st3
              (Candidates.nsp
                (NsProvider.new env.shuffleRecords message.name_servers message.additionals))
              to_resolve record_type depth
termination_by structural fuel

end

/-- RecursiveResolver::resolve: fresh per-query state (empty seen list, empty
trace) and resolution starting at depth 1 on the shared cache. -/
def resolve (env : ResEnv) (fuel : Nat) (cache : DnsCache) (to_resolve : DnsName)
    (record_type : RecordType) : Except ResolutionError (List Record) × ResState :=
  resolve_inner env fuel ⟨[], cache, []⟩ to_resolve record_type 1

/-- Observable result of a single cache read, without the state update. -/
def rawView (c : DnsCache) (q : Query) (now : Nat) : Option (List Record × Nat) :=
  (Cache.get_with_remaining_ttl c q now).1

/-- Two cache states agree on every read made at the given instant. -/
def viewsAgree (c1 c2 : DnsCache) (now : Nat) : Prop :=
  ∀ q : Query, rawView c1 q now = rawView c2 q now

/-- Sample name used by concrete witnesses. -/
def exName : DnsName := [r"example", r"com"]

/-- Sample query used by concrete witnesses. -/
def exQuery : Query := ⟨exName, RecordType.A⟩

/-- Sample A record with a chosen ttl, used by concrete witnesses. -/
def exRecord (t : Nat) : Record := ⟨exName, RecordType.A, t, some (RData.A 1)⟩

/-- Sample out-of-zone NS record (owner net, not an ancestor of example.com),
used by concrete witnesses. -/
def exNsNet : Record := ⟨[r"net"], RecordType.NS, 60, some (RData.NS [r"dns", r"foo", r"bar"])⟩

/-- Sample NS record delegating com to ns0.com, used by concrete witnesses. -/
def exNsCom : Record := ⟨[r"com"], RecordType.NS, 60, some (RData.NS [r"ns0", r"com"])⟩

/-- Sample glue A record for ns0.com, used by concrete witnesses. -/
def exGlue : Record := ⟨[r"ns0", r"com"], RecordType.A, 60, some (RData.A 7)⟩

/-- Sample empty DNS cache used by concrete witnesses. -/
def emptyDnsCache : DnsCache := Cache.new 100

/-- Sample environment whose backend always fails, used by concrete
witnesses. -/
def failEnv : ResEnv := ⟨fun _ _ _ => Except.error ResolutionError.IoError, [IpAddr.v4 1], id, id, 0⟩

/-- Sample resolution state with an empty seen list, used by concrete
witnesses. -/
def freshState : ResState := ⟨[], emptyDnsCache, []⟩

/-- Sample resolution state whose seen list already holds (example.com, A),
used by concrete witnesses. -/
def seenState : ResState := ⟨[(exName, RecordType.A)], emptyDnsCache, []⟩

theorem query_beq_eq (a b : Query) : (a == b) = queryBeq a b := rfl

theorem queryBeq_iff (a b : Query) : queryBeq a b = true ↔ canonQ a = canonQ b := by
  simp [queryBeq]

theorem queryBeq_self (a : Query) : queryBeq a a = true := by
  simp [queryBeq]

theorem min_ttl_nil : min_ttl [] = 0 := rfl

theorem min_ttl_le (v : List Record) (r : Record) (h : r ∈ v) : min_ttl v ≤ r.ttl := by
  induction v with
  | nil => cases h
  | cons a t ih =>
    cases t with
    | nil =>
      rw [List.mem_singleton] at h
      subst h
      exact Nat.le_refl _
    | cons b t2 =>
      rcases List.mem_cons.mp h with h1 | h2
      · subst h1
        exact Nat.min_le_left _ _
      · exact Nat.le_trans (Nat.min_le_right _ _) (ih h2)

theorem min_ttl_mem (v : List Record) (h : v ≠ []) : ∃ r ∈ v, min_ttl v = r.ttl := by
  induction v with
  | nil => exact absurd rfl h
  | cons a t ih =>
    cases t with
    | nil => exact ⟨a, List.mem_singleton.mpr rfl, rfl⟩
    | cons b t2 =>
      rcases Nat.le_total a.ttl (min_ttl (b :: t2)) with hle | hle
      · exact ⟨a, List.mem_cons_self _ _, Nat.min_eq_left hle⟩
      · obtain ⟨r, hr, he⟩ := ih (by simp)
        exact ⟨r, List.mem_cons_of_mem _ hr, by rw [show min_ttl (a :: b :: t2) = min a.ttl (min_ttl (b :: t2)) from rfl, Nat.min_eq_right hle, he]⟩

theorem find?_filter_not_self {α : Type} (p : α → Bool) (l : List α) :
    (l.filter (fun x => !(p x))).find? p = none := by
  rw [List.find?_eq_none]
  intro x hx
  have hmem := (List.mem_filter.mp hx).2
  simp only [Bool.not_eq_true'] at hmem
  simp [hmem]

/-- C6: DnsCache.store leaves the whole cache state unchanged when the
minimum ttl over the record list is 0, in particular when any record has
ttl 0; otherwise it stores the entry with expiry now plus min_ttl
seconds. -/
theorem store_zero_min_ttl_suppressed (c : DnsCache) (q : Query) (v : List Record) (now : Nat) :
    (min_ttl v = 0 → DnsCache.store c q v now = c) ∧
    ((∃ r ∈ v, r.ttl = 0) → DnsCache.store c q v now = c) ∧
    (min_ttl v ≠ 0 →
      DnsCache.store c q v now = Cache.store_with_ttl c q v (now + min_ttl v * nanosPerSec)) := by
  refine ⟨fun h => by simp [DnsCache.store, h], ?_, fun h => by simp [DnsCache.store, h]⟩
  rintro ⟨r, hr, h0⟩
  have hz : min_ttl v = 0 := Nat.le_antisymm (h0 ▸ min_ttl_le v r hr) (Nat.zero_le _)
  simp [DnsCache.store, hz]

/-- C6 witness: a batch holding a ttl 0 record is not written, a batch of
minimum ttl 47 is written with expiry 47 seconds later. -/
theorem store_zero_min_ttl_suppressed_witness :
    DnsCache.store emptyDnsCache exQuery [exRecord 0] 3 = emptyDnsCache ∧
    DnsCache.store emptyDnsCache exQuery [exRecord 47] 3 =
      Cache.store_with_ttl emptyDnsCache exQuery [exRecord 47] (3 + 47 * nanosPerSec) := by
  constructor
  · exact (store_zero_min_ttl_suppressed emptyDnsCache exQuery [exRecord 0] 3).2.1
      ⟨exRecord 0, by decide, by decide⟩
  · exact (store_zero_min_ttl_suppressed emptyDnsCache exQuery [exRecord 47] 3).2.2 (by decide)

/-- C1 counterexample: at the expiry instant itself the entry is still
returned; get_with_remaining_ttl with now equal to the stored expiry gives
back the value with remaining duration 0 instead of the None the claim
requires, because the code only expires entries whose valid_before is
strictly less than now. -/
theorem get_at_expiry_instant_hits :
    ¬ ((Cache.get_with_remaining_ttl
        (Cache.store_with_ttl (Cache.new 10 : Cache Nat Nat) 1 42 5) 1 5).1 = none) := by
  decide

/-- C1 (amended): for a key stored with value v and expiry e, a read at
now ≤ e returns some (v, e - now), and a read at now > e returns none,
removes the entry, and a find for the key in the resulting state misses. -/
theorem get_with_remaining_ttl_expiry_behavior {K V : Type} [BEq K] (c : Cache K V)
    (key k0 : K) (v : V) (e now : Nat)
    (h : c.entries.find? (fun p => p.1 == key) = some (k0, ⟨v, e⟩)) :
    (now ≤ e → (Cache.get_with_remaining_ttl c key now).1 = some (v, e - now)) ∧
    (e < now →
      (Cache.get_with_remaining_ttl c key now).1 = none ∧
      (Cache.get_with_remaining_ttl c key now).2.entries =
        c.entries.filter (fun p => !(p.1 == key)) ∧
      ((Cache.get_with_remaining_ttl c key now).2.entries.find? (fun p => p.1 == key)) = none) := by
  constructor
  · intro hle
    simp [Cache.get_with_remaining_ttl, h, Nat.not_lt.mpr hle]
  · intro hlt
    refine ⟨?_, ?_, ?_⟩
    · simp [Cache.get_with_remaining_ttl, h, hlt]
    · simp [Cache.get_with_remaining_ttl, h, hlt]
    · simp [Cache.get_with_remaining_ttl, h, hlt, find?_filter_not_self]

/-- C1 witness: with an entry of expiry 5, a read at 5 hits with remaining
duration 0 and a read at 6 misses. -/
theorem get_with_remaining_ttl_expiry_behavior_witness :
    (Cache.get_with_remaining_ttl
      (Cache.store_with_ttl (Cache.new 10 : Cache Nat Nat) 1 42 5) 1 5).1 = some (42, 0) ∧
    (Cache.get_with_remaining_ttl
      (Cache.store_with_ttl (Cache.new 10 : Cache Nat Nat) 1 42 5) 1 6).1 = none := by
  constructor
  · exact (get_with_remaining_ttl_expiry_behavior
      (Cache.store_with_ttl (Cache.new 10 : Cache Nat Nat) 1 42 5) 1 1 42 5 5 (by decide)).1
      (by decide)
  · exact ((get_with_remaining_ttl_expiry_behavior
      (Cache.store_with_ttl (Cache.new 10 : Cache Nat Nat) 1 42 5) 1 1 42 5 6 (by decide)).2
      (by decide)).1

/-- C5: after a store at t0 of a batch whose minimum ttl is T, a
get_and_update_ttl before expiry returns the batch with every ttl field
rewritten to the floor of T minus (now - t0) in whole seconds; all records
of the batch carry that same value. -/
theorem get_and_update_ttl_rewrites_ttl (c : DnsCache) (q : Query) (v : List Record)
    (t0 now : Nat) (hcap : 0 < c.capacity) (hT : 0 < min_ttl v)
    (hwf : ∀ r ∈ v, r.ttl < u32Mod) (h0 : t0 ≤ now)
    (h1 : now < t0 + min_ttl v * nanosPerSec) :
    (DnsCache.get_and_update_ttl (DnsCache.store c q v t0) q now).1 =
      some (v.map (fun r =>
        { r with ttl := (min_ttl v * nanosPerSec - (now - t0)) / nanosPerSec })) := by
  obtain ⟨r0, hr0, hEq⟩ := min_ttl_mem v (by
    intro hv
    rw [hv, min_ttl_nil] at hT
    exact Nat.lt_irrefl 0 hT)
  have hTu : min_ttl v < u32Mod := hEq ▸ hwf r0 hr0
  have hmin : ¬ (min_ttl v = 0) := Nat.pos_iff_ne_zero.mp hT
  obtain ⟨cap1, hcapEq⟩ : ∃ m, c.capacity = m + 1 := ⟨c.capacity - 1, by omega⟩
  have hexp : ¬ (t0 + min_ttl v * nanosPerSec < now) := by omega
  simp only [DnsCache.store, if_neg hmin, DnsCache.get_and_update_ttl,
    Cache.get_with_remaining_ttl, Cache.store_with_ttl, hcapEq, List.take_succ_cons,
    List.find?_cons, query_beq_eq, queryBeq_self, cond_true, if_neg hexp]
  have harith : t0 + min_ttl v * nanosPerSec - now = min_ttl v * nanosPerSec - (now - t0) := by
    omega
  have hdle : (min_ttl v * nanosPerSec - (now - t0)) / nanosPerSec ≤ min_ttl v := by
    calc (min_ttl v * nanosPerSec - (now - t0)) / nanosPerSec
        ≤ min_ttl v * nanosPerSec / nanosPerSec :=
          Nat.div_le_div_right (Nat.sub_le _ _)
      _ = min_ttl v := Nat.mul_div_cancel _ (by decide)
  have hdiv : (min_ttl v * nanosPerSec - (now - t0)) / nanosPerSec % u32Mod =
      (min_ttl v * nanosPerSec - (now - t0)) / nanosPerSec :=
    Nat.mod_eq_of_lt (Nat.lt_of_le_of_lt hdle hTu)
  simp only [update_ttl, Option.map_some', harith, hdiv]

/-- C5 witness: a batch of ttl 47 stored at 0 and read 10 seconds later
comes back with every ttl equal to 37. -/
theorem get_and_update_ttl_rewrites_ttl_witness :
    (DnsCache.get_and_update_ttl
      (DnsCache.store (Cache.new 1) exQuery [exRecord 47] 0) exQuery (10 * nanosPerSec)).1 =
      some [exRecord 37] := by
  have h := get_and_update_ttl_rewrites_ttl (Cache.new 1) exQuery [exRecord 47] 0
    (10 * nanosPerSec) (by decide) (by decide) (by decide) (by decide) (by decide)
  rw [h]
  decide

theorem eligibleNsLoop_eq (tr : DnsName) (l : List Record) (acc : List DnsName) :
    eligibleNsLoop tr l acc =
      if l.all (fun r => zone_of r.name tr) then some ((ns_targets l).reverse ++ acc)
      else none := by
  induction l generalizing acc with
  | nil => simp [eligibleNsLoop, ns_targets]
  | cons r rest ih =>
    cases hz : zone_of r.name tr with
    | false => simp [eligibleNsLoop, hz]
    | true =>
      cases hd : r.data with
      | none => simp [eligibleNsLoop, hz, hd, ih, ns_targets]
      | some rd =>
        cases rd with
        | A a => simp [eligibleNsLoop, hz, hd, ih, ns_targets]
        | AAAA a => simp [eligibleNsLoop, hz, hd, ih, ns_targets]
        | NS t =>
          simp [eligibleNsLoop, hz, hd, ih, ns_targets, List.filterMap_cons, List.append_assoc]

theorem eligible_iff (ns glue : List Record) (tr : DnsName) :
    eligible ns glue tr = true ↔
      ((∀ r ∈ ns, zone_of r.name tr = true) ∧
        ∀ g ∈ glue, ∃ t ∈ ns_targets ns, nameEq g.name t = true) := by
  unfold eligible
  rw [eligibleNsLoop_eq]
  by_cases hall : ns.all (fun r => zone_of r.name tr) = true
  · rw [if_pos hall]
    rw [List.all_eq_true] at hall
    simp only [List.all_eq_true, List.any_eq_true, List.mem_reverse, List.append_nil,
      List.mem_append]
    constructor
    · intro hg
      exact ⟨hall, hg⟩
    · rintro ⟨_, hg⟩
      exact hg
  · rw [if_neg hall]
    rw [List.all_eq_true] at hall
    constructor
    · intro he
      cases he
    · rintro ⟨h1, _⟩
      exact absurd h1 hall

/-- C2: a referral in which some name server owner is not an ancestor of the
name being resolved, or some glue owner is not among the NS target names
(compared case-insensitively), is rejected as a whole: store_referral
leaves the cache state completely unchanged. -/
theorem store_referral_ineligible_unchanged (c : DnsCache) (ns glue : List Record)
    (tr : DnsName) (now : Nat)
    (h : (∃ r ∈ ns, zone_of r.name tr = false) ∨
         (∃ g ∈ glue, ∀ t ∈ ns_targets ns, nameEq g.name t = false)) :
    DnsCache.store_referral c ns glue tr now = c := by
  have hel : ¬ (eligible ns glue tr = true) := by
    intro he
    obtain ⟨h1, h2⟩ := (eligible_iff ns glue tr).mp he
    rcases h with ⟨r, hr, hz⟩ | ⟨g, hg, hn⟩
    · rw [h1 r hr] at hz
      cases hz
    · obtain ⟨t, ht, he2⟩ := h2 g hg
      rw [hn t ht] at he2
      cases he2
  simp [DnsCache.store_referral, hel]

/-- C2 witness: an out-of-zone NS owner (net for example.com) and a glue
record whose owner is not an NS target both leave the cache unchanged. -/
theorem store_referral_ineligible_unchanged_witness :
    DnsCache.store_referral emptyDnsCache [exNsNet] [] exName 0 = emptyDnsCache ∧
    DnsCache.store_referral emptyDnsCache [exNsCom] [exRecord 60] [r"foo", r"com"] 0 =
      emptyDnsCache := by
  constructor
  · exact store_referral_ineligible_unchanged emptyDnsCache [exNsNet] [] exName 0
      (Or.inl ⟨exNsNet, by decide, by decide⟩)
  · exact store_referral_ineligible_unchanged emptyDnsCache [exNsCom] [exRecord 60]
      [r"foo", r"com"] 0 (Or.inr ⟨exRecord 60, by decide, by decide⟩)

theorem nonEmpty_store (c : DnsCache) (q : Query) (v : List Record) (now : Nat)
    (hc : nonEmptyEntries c) : nonEmptyEntries (DnsCache.store c q v now) := by
  unfold DnsCache.store
  by_cases h : min_ttl v = 0
  · simpa [h] using hc
  · simp only [h, if_false]
    intro p hp
    rcases List.mem_cons.mp (List.take_subset _ _ hp) with h1 | h2
    · have hv : v ≠ [] := by
        intro he
        rw [he, min_ttl_nil] at h
        exact h rfl
      rw [h1]
      exact hv
    · exact hc p (List.mem_of_mem_filter h2)

theorem nonEmpty_store_fold (gs : List (Query × List Record)) (c : DnsCache) (now : Nat)
    (hc : nonEmptyEntries c) :
    nonEmptyEntries (gs.foldl (fun acc p => DnsCache.store acc p.1 p.2 now) c) := by
  induction gs generalizing c with
  | nil => exact hc
  | cons g rest ih => exact ih _ (nonEmpty_store c g.1 g.2 now hc)

theorem nonEmpty_store_referral (c : DnsCache) (ns glue : List Record) (tr : DnsName)
    (now : Nat) (hc : nonEmptyEntries c) :
    nonEmptyEntries (DnsCache.store_referral c ns glue tr now) := by
  unfold DnsCache.store_referral
  by_cases h : eligible ns glue tr = true
  · simp only [h, if_true]
    exact nonEmpty_store_fold _ _ now (nonEmpty_store_fold _ _ now hc)
  · simp [h, hc]

theorem nonEmpty_get_state (c : DnsCache) (q : Query) (now : Nat)
    (hc : nonEmptyEntries c) :
    nonEmptyEntries ((Cache.get_with_remaining_ttl c q now).2) := by
  unfold Cache.get_with_remaining_ttl
  cases hf : c.entries.find? (fun p => p.1 == q) with
  | none => exact hc
  | some p =>
    by_cases hex : p.2.valid_before < now
    · simp only [hex, if_true]
      intro x hx
      exact hc x (List.mem_of_mem_filter hx)
    · simp only [hex, if_false]
      intro x hx
      rcases List.mem_cons.mp hx with h1 | h2
      · rw [h1]
        exact hc p (List.mem_of_find?_eq_some hf)
      · exact hc x (List.eraseP_subset _ h2)

theorem get_and_update_fst (c : DnsCache) (q : Query) (now : Nat) :
    (DnsCache.get_and_update_ttl c q now).1 =
      ((Cache.get_with_remaining_ttl c q now).1).map update_ttl := rfl

theorem get_and_update_snd (c : DnsCache) (q : Query) (now : Nat) :
    (DnsCache.get_and_update_ttl c q now).2 = (Cache.get_with_remaining_ttl c q now).2 := rfl

theorem get_some_entry (c : DnsCache) (q : Query) (now : Nat) (v : List Record) (d : Nat)
    (h : (Cache.get_with_remaining_ttl c q now).1 = some (v, d)) :
    ∃ p ∈ c.entries, p.2.value = v := by
  unfold Cache.get_with_remaining_ttl at h
  cases hf : c.entries.find? (fun p => p.1 == q) with
  | none => rw [hf] at h; cases h
  | some p =>
    rw [hf] at h
    by_cases hex : p.2.valid_before < now
    · simp [hex] at h
    · simp only [hex, if_false] at h
      have hv : p.2.value = v := by
        have := (Option.some.injEq _ _).mp h
        exact ((Prod.mk.injEq _ _ _ _).mp this).1
      exact ⟨p, List.mem_of_find?_eq_some hf, hv⟩

theorem get_and_update_some_nonEmpty (c : DnsCache) (q : Query) (now : Nat)
    (recs : List Record) (hc : nonEmptyEntries c)
    (h : (DnsCache.get_and_update_ttl c q now).1 = some recs) : recs ≠ [] := by
  rw [get_and_update_fst] at h
  cases hv : (Cache.get_with_remaining_ttl c q now).1 with
  | none => rw [hv] at h; cases h
  | some vd =>
    rw [hv] at h
    obtain ⟨p, hp, hval⟩ := get_some_entry c q now vd.1 vd.2 (by rw [hv])
    have hne : vd.1 ≠ [] := hval ▸ hc p hp
    simp only [Option.map_some'] at h
    have h2 : update_ttl vd = recs := (Option.some.injEq _ _).mp h
    rw [← h2]
    simp [update_ttl, hne]

theorem nonEmpty_get_and_update_state (c : DnsCache) (q : Query) (now : Nat)
    (hc : nonEmptyEntries c) :
    nonEmptyEntries ((DnsCache.get_and_update_ttl c q now).2) := by
  rw [get_and_update_snd]
  exact nonEmpty_get_state c q now hc

theorem getBestLoop_referral_nonEmpty (ps : List DnsName) (c : DnsCache) (now : Nat)
    (rs gs : List Record) (c1 : DnsCache) (hc : nonEmptyEntries c)
    (h : getBestLoop c ps now = (CacheResponse.Referral rs gs, c1)) : rs ≠ [] := by
  induction ps generalizing c with
  | nil => cases h
  | cons p rest ih =>
    rcases hg : DnsCache.get_and_update_ttl c ⟨p, RecordType.NS⟩ now with ⟨o, c2⟩
    cases o with
    | some records =>
      simp only [getBestLoop, hg] at h
      rcases hfg : DnsCache.fetch_glue c2 records now with ⟨gl, c3⟩
      rw [hfg] at h
      cases h
      exact get_and_update_some_nonEmpty c ⟨p, RecordType.NS⟩ now rs hc (by rw [hg])
    | none =>
      simp only [getBestLoop, hg] at h
      have hc2 : nonEmptyEntries c2 := by
        have h2 := nonEmpty_get_and_update_state c ⟨p, RecordType.NS⟩ now hc
        rw [hg] at h2
        exact h2
      exact ih c2 hc2 h

theorem getBestLoop_not_authoritative (ps : List DnsName) (c : DnsCache) (now : Nat)
    (recs : List Record) (c1 : DnsCache) :
    getBestLoop c ps now ≠ (CacheResponse.Authoritative recs, c1) := by
  induction ps generalizing c with
  | nil => intro h; cases h
  | cons p rest ih =>
    rcases hg : DnsCache.get_and_update_ttl c ⟨p, RecordType.NS⟩ now with ⟨o, c2⟩
    cases o with
    | some records =>
      simp only [getBestLoop, hg]
      rcases hfg : DnsCache.fetch_glue c2 records now with ⟨gl, c3⟩
      intro h
      cases h
    | none =>
      simp only [getBestLoop, hg]
      exact ih c2

/-- C10: the public write paths never create an entry holding an empty
record list: storing the empty batch is suppressed (its minimum ttl is 0),
both store and store_referral preserve the invariant that every cached
entry is non-empty, and under that invariant get_best_record never returns
an Authoritative or a Referral whose record list is empty. -/
theorem cache_writes_nonempty (c : DnsCache) (q : Query) (v ns glue : List Record)
    (tr : DnsName) (now : Nat) (hc : nonEmptyEntries c) :
    DnsCache.store c q [] now = c ∧
    nonEmptyEntries (DnsCache.store c q v now) ∧
    nonEmptyEntries (DnsCache.store_referral c ns glue tr now) ∧
    (∀ recs c1, DnsCache.get_best_record c q now = (CacheResponse.Authoritative recs, c1) →
      recs ≠ []) ∧
    (∀ rs gs c1, DnsCache.get_best_record c q now = (CacheResponse.Referral rs gs, c1) →
      rs ≠ []) := by
  refine ⟨by simp [DnsCache.store, min_ttl_nil], nonEmpty_store c q v now hc,
    nonEmpty_store_referral c ns glue tr now hc, ?_, ?_⟩
  · intro recs c1 h
    rcases hg : DnsCache.get_and_update_ttl c q now with ⟨o, c2⟩
    cases o with
    | some records =>
      simp only [DnsCache.get_best_record, hg] at h
      cases h
      exact get_and_update_some_nonEmpty c q now recs hc (by rw [hg])
    | none =>
      simp only [DnsCache.get_best_record, hg] at h
      exact absurd h (getBestLoop_not_authoritative (parents q.to_resolve) c2 now recs c1)
  · intro rs gs c1 h
    rcases hg : DnsCache.get_and_update_ttl c q now with ⟨o, c2⟩
    cases o with
    | some records =>
      simp only [DnsCache.get_best_record, hg] at h
      cases h
    | none =>
      simp only [DnsCache.get_best_record, hg] at h
      have hc2 : nonEmptyEntries c2 := by
        have h2 := nonEmpty_get_and_update_state c q now hc
        rw [hg] at h2
        exact h2
      exact getBestLoop_referral_nonEmpty (parents q.to_resolve) c2 now rs gs c1 hc2 h

/-- C10 witness: on the empty cache, storing an empty batch is a no-op and a
store of a non-empty batch preserves the non-empty-entries invariant. -/
theorem cache_writes_nonempty_witness :
    DnsCache.store emptyDnsCache exQuery [] 0 = emptyDnsCache ∧
    nonEmptyEntries (DnsCache.store emptyDnsCache exQuery [exRecord 47] 0) := by
  have h := cache_writes_nonempty emptyDnsCache exQuery [exRecord 47] [] [] exName 0
    (fun p hp => absurd hp (List.not_mem_nil p))
  exact ⟨h.1, h.2.1⟩

theorem popLast_nil {α : Type} : popLast ([] : List α) = none := rfl

theorem popLast_concat {α : Type} (l : List α) (a : α) : popLast (l ++ [a]) = some (l, a) := by
  simp [popLast, List.getLast?_concat, List.dropLast_concat]

theorem find_in_glue_nil (tgt : DnsName) : find_in_glue tgt [] = none := rfl

theorem find_in_glue_cons (tgt : DnsName) (g : Record) (rest : List Record) :
    find_in_glue tgt (g :: rest) =
      if g.record_type = RecordType.A ∧ nameEq g.name tgt = true then
        match g.data with
        | some (RData.A a) => some (IpAddr.v4 a)
        | _ => find_in_glue tgt rest
      else find_in_glue tgt rest := by
  unfold find_in_glue
  by_cases h1 : g.record_type = RecordType.A
  · by_cases h2 : nameEq g.name tgt = true
    · rw [if_pos ⟨h1, h2⟩]
      cases hd : g.data with
      | none => simp [List.filter_cons, h1, h2, List.findSome?_cons, hd]
      | some rd => cases rd <;> simp [List.filter_cons, h1, h2, List.findSome?_cons, hd]
    · rw [if_neg (fun hc => h2 hc.2)]
      simp [List.filter_cons, h1, h2]
  · rw [if_neg (fun hc => h1 hc.1)]
    simp [List.filter_cons, h1]

theorem find_in_glue_isSome_iff (tgt : DnsName) (glue : List Record) :
    (find_in_glue tgt glue).isSome = true ↔
      ∃ g ∈ glue, g.record_type = RecordType.A ∧ nameEq g.name tgt = true ∧
        ∃ a, g.data = some (RData.A a) := by
  induction glue with
  | nil => simp [find_in_glue_nil]
  | cons g rest ih =>
    rw [find_in_glue_cons]
    by_cases h1 : g.record_type = RecordType.A ∧ nameEq g.name tgt = true
    · rw [if_pos h1]
      cases hd : g.data with
      | none =>
        rw [ih]
        constructor
        · rintro ⟨g2, hg2, hp⟩
          exact ⟨g2, List.mem_cons_of_mem _ hg2, hp⟩
        · rintro ⟨g2, hg2, hp⟩
          rcases List.mem_cons.mp hg2 with he | hm
          · obtain ⟨a, ha⟩ := hp.2.2
            rw [he, hd] at ha
            cases ha
          · exact ⟨g2, hm, hp⟩
      | some rd =>
        cases rd with
        | A a => simp [hd, h1.1, h1.2]
        | AAAA a =>
          rw [ih]
          constructor
          · rintro ⟨g2, hg2, hp⟩
            exact ⟨g2, List.mem_cons_of_mem _ hg2, hp⟩
          · rintro ⟨g2, hg2, hp⟩
            rcases List.mem_cons.mp hg2 with he | hm
            · obtain ⟨a2, ha⟩ := hp.2.2
              rw [he, hd] at ha
              cases ha
            · exact ⟨g2, hm, hp⟩
        | NS t =>
          rw [ih]
          constructor
          · rintro ⟨g2, hg2, hp⟩
            exact ⟨g2, List.mem_cons_of_mem _ hg2, hp⟩
          · rintro ⟨g2, hg2, hp⟩
            rcases List.mem_cons.mp hg2 with he | hm
            · obtain ⟨a2, ha⟩ := hp.2.2
              rw [he, hd] at ha
              cases ha
            · exact ⟨g2, hm, hp⟩
    · rw [if_neg h1]
      rw [ih]
      constructor
      · rintro ⟨g2, hg2, hp⟩
        exact ⟨g2, List.mem_cons_of_mem _ hg2, hp⟩
      · rintro ⟨g2, hg2, hp⟩
        rcases List.mem_cons.mp hg2 with he | hm
        · exact absurd ⟨he ▸ hp.1, he ▸ hp.2.1⟩ h1
        · exact ⟨g2, hm, hp⟩

theorem find_in_glue_some (tgt : DnsName) (glue : List Record) (ip : IpAddr)
    (h : find_in_glue tgt glue = some ip) :
    ∃ g ∈ glue, g.record_type = RecordType.A ∧ nameEq g.name tgt = true ∧
      ∃ a, g.data = some (RData.A a) ∧ ip = IpAddr.v4 a := by
  induction glue with
  | nil => cases h
  | cons g rest ih =>
    rw [find_in_glue_cons] at h
    by_cases h1 : g.record_type = RecordType.A ∧ nameEq g.name tgt = true
    · rw [if_pos h1] at h
      cases hd : g.data with
      | none =>
        rw [hd] at h
        obtain ⟨g2, hg2, hp⟩ := ih h
        exact ⟨g2, List.mem_cons_of_mem _ hg2, hp⟩
      | some rd =>
        cases rd with
        | A a =>
          rw [hd] at h
          have : ip = IpAddr.v4 a := ((Option.some.injEq _ _).mp h).symm
          exact ⟨g, List.mem_cons_self _ _, h1.1, h1.2, a, hd, this⟩
        | AAAA a =>
          rw [hd] at h
          obtain ⟨g2, hg2, hp⟩ := ih h
          exact ⟨g2, List.mem_cons_of_mem _ hg2, hp⟩
        | NS t =>
          rw [hd] at h
          obtain ⟨g2, hg2, hp⟩ := ih h
          exact ⟨g2, List.mem_cons_of_mem _ hg2, hp⟩
    · rw [if_neg h1] at h
      obtain ⟨g2, hg2, hp⟩ := ih h
      exact ⟨g2, List.mem_cons_of_mem _ hg2, hp⟩

/-- C9: NsProvider keeps only records of type NS (for any shuffle outcome
that permutes its input); each next() call pops one NS record and, when its
rdata carries a target name, yields Target.Ip with an address taken from a
glue A record whose owner equals the target name when one exists, and
Target.Name of the target otherwise; an exhausted provider yields none. -/
theorem ns_provider_behavior (shuffle : List Record → List Record)
    (hsh : ∀ l, List.Perm (shuffle l) l) (nameservers glue : List Record) :
    (∀ r ∈ (NsProvider.new shuffle nameservers glue).shuffled_nameservers,
      r.record_type = RecordType.NS) ∧
    ((NsProvider.new shuffle nameservers glue).shuffled_nameservers = [] →
      NsProvider.next (NsProvider.new shuffle nameservers glue) =
        (Except.ok none, NsProvider.new shuffle nameservers glue)) ∧
    (∀ init last tgt,
      (NsProvider.new shuffle nameservers glue).shuffled_nameservers = init ++ [last] →
      last.data = some (RData.NS tgt) →
      NsProvider.next (NsProvider.new shuffle nameservers glue) =
        (Except.ok (some (match find_in_glue tgt glue with
          | some ip => Target.Ip ip
          | none => Target.Name tgt)), ⟨init, glue⟩)) ∧
    (∀ tgt, (find_in_glue tgt glue).isSome = true ↔
      ∃ g ∈ glue, g.record_type = RecordType.A ∧ nameEq g.name tgt = true ∧
        ∃ a, g.data = some (RData.A a)) ∧
    (∀ tgt ip, find_in_glue tgt glue = some ip →
      ∃ g ∈ glue, g.record_type = RecordType.A ∧ nameEq g.name tgt = true ∧
        ∃ a, g.data = some (RData.A a) ∧ ip = IpAddr.v4 a) := by
  have hNS : ∀ r ∈ (NsProvider.new shuffle nameservers glue).shuffled_nameservers,
      r.record_type = RecordType.NS := by
    intro r hr
    have hr2 : r ∈ nameservers.filter (fun r => decide (r.record_type = RecordType.NS)) :=
      (hsh _).mem_iff.mp hr
    exact of_decide_eq_true (List.mem_filter.mp hr2).2
  refine ⟨hNS, ?_, ?_, fun tgt => find_in_glue_isSome_iff tgt glue,
    fun tgt ip h => find_in_glue_some tgt glue ip h⟩
  · intro h
    simp [NsProvider.next, h, popLast_nil]
  · intro init last tgt hsplit hd
    have hns : last.record_type = RecordType.NS := hNS last (by
      rw [hsplit]
      exact List.mem_append_right _ (List.mem_singleton.mpr rfl))
    have hget : get_target last glue =
        Except.ok (match find_in_glue tgt glue with
          | some ip => Target.Ip ip
          | none => Target.Name tgt) := by
      unfold get_target get_name_if_ns
      rw [if_neg (by simp [hns])]
      rw [hd]
      cases hf : find_in_glue tgt glue <;> simp [hf]
    have hglue : (NsProvider.new shuffle nameservers glue).glue = glue := rfl
    simp only [NsProvider.next, hsplit, popLast_concat, hglue, hget]

/-- C9 witness: a provider built from one well-formed NS record yields the
glued address for ns0.com when glue has it, and the bare name without glue;
the empty provider yields none. -/
theorem ns_provider_behavior_witness :
    NsProvider.next (NsProvider.new id [exNsCom] [exGlue]) =
      (Except.ok (some (Target.Ip (IpAddr.v4 7))), ⟨[], [exGlue]⟩) ∧
    NsProvider.next (NsProvider.new id [exNsCom] []) =
      (Except.ok (some (Target.Name [r"ns0", r"com"])), ⟨[], []⟩) ∧
    NsProvider.next (NsProvider.new id [] [exGlue]) =
      (Except.ok none, NsProvider.new id [] [exGlue]) := by
  refine ⟨?_, ?_, ?_⟩
  · have h := (ns_provider_behavior id (fun l => List.Perm.refl l) [exNsCom] [exGlue]).2.2.1
      [] exNsCom [r"ns0", r"com"] (by decide) (by decide)
    rw [h]
    rfl
  · have h := (ns_provider_behavior id (fun l => List.Perm.refl l) [exNsCom] []).2.2.1
      [] exNsCom [r"ns0", r"com"] (by decide) (by decide)
    rw [h]
    rfl
  · exact (ns_provider_behavior id (fun l => List.Perm.refl l) [] [exGlue]).2.1 (by decide)

/-- C4: converting a Target.Name to an IP address recursively resolves
(name, A) at depth plus 1 and feeds the resulting record list to first_ip,
which takes the last record: an empty result is a ServFail, a last record
whose rdata is of type A gives its address, and a last record whose rdata
is absent or not of type A is a ServFail. Errors of the sub-resolution are
propagated. -/
theorem target_name_to_ip_spec (env : ResEnv) (fuel : Nat) (st st1 : ResState)
    (n : DnsName) (depth : Nat) :
    (∀ records, resolve_inner env fuel st n RecordType.A (depth + 1) = (Except.ok records, st1) →
      target_to_ip env (fuel + 1) st (Target.Name n) depth = (first_ip records, st1)) ∧
    (∀ e, resolve_inner env fuel st n RecordType.A (depth + 1) = (Except.error e, st1) →
      target_to_ip env (fuel + 1) st (Target.Name n) depth = (Except.error e, st1)) ∧
    isServFail (first_ip ([] : List Record)) ∧
    (∀ rs r a, r.data = some (RData.A a) →
      first_ip (rs ++ [r]) = Except.ok (IpAddr.v4 a)) ∧
    (∀ rs r, (∀ a, r.data ≠ some (RData.A a)) → isServFail (first_ip (rs ++ [r]))) := by
  refine ⟨?_, ?_, ⟨_, rfl⟩, ?_, ?_⟩
  · intro records h
    simp only [target_to_ip, h]
  · intro e h
    simp only [target_to_ip, h]
  · intro rs r a ha
    simp [first_ip, List.getLast?_concat, ha]
  · intro rs r hna
    simp only [first_ip, List.getLast?_concat]
    cases hd : r.data with
    | none => exact ⟨_, rfl⟩
    | some rd =>
      cases rd with
      | A a => exact absurd hd (hna a)
      | AAAA a => exact ⟨_, rfl⟩
      | NS t => exact ⟨_, rfl⟩

/-- C4 witness: a Name target at depth 9 propagates the depth-guard ServFail
of the sub-resolution, and first_ip picks the address of the last A
record. -/
theorem target_name_to_ip_spec_witness :
    target_to_ip failEnv 2 freshState (Target.Name exName) 9 =
      (Except.error (ResolutionError.ServFail (r"Refusing to recurse deeper than 5")),
        freshState) ∧
    first_ip [exRecord 47] = Except.ok (IpAddr.v4 1) := by
  constructor
  · exact (target_name_to_ip_spec failEnv 1 freshState freshState exName 9).2.1 _ (by rfl)
  · exact (target_name_to_ip_spec failEnv 1 freshState freshState exName 9).2.2.2.1
      [] (exRecord 47) 1 (by rfl)

theorem resolve_state_evolution (fuel : Nat) :
    (∀ env st n rt d,
      (∃ ext, (resolve_inner env fuel st n rt d).2.seen = st.seen ++ ext) ∧
      (∃ tx, (resolve_inner env fuel st n rt d).2.trace = st.trace ++ tx ∧
        ∀ e ∈ tx, e.1 ≤ MAX_RECURSION_DEPTH)) ∧
    (∀ env st t d,
      (∃ ext, (target_to_ip env fuel st t d).2.seen = st.seen ++ ext) ∧
      (∃ tx, (target_to_ip env fuel st t d).2.trace = st.trace ++ tx ∧
        ∀ e ∈ tx, e.1 ≤ MAX_RECURSION_DEPTH)) ∧
    (∀ env st cands n rt d, d ≤ MAX_RECURSION_DEPTH →
      (∃ ext, (resolve_loop env fuel st cands n rt d).2.seen = st.seen ++ ext) ∧
      (∃ tx, (resolve_loop env fuel st cands n rt d).2.trace = st.trace ++ tx ∧
        ∀ e ∈ tx, e.1 ≤ MAX_RECURSION_DEPTH)) := by
  induction fuel with
  | zero =>
    refine ⟨?_, ?_, ?_⟩
    · intro env st n rt d
      exact ⟨⟨[], by simp [resolve_inner]⟩,
        ⟨[], by simp [resolve_inner], fun e he => absurd he (List.not_mem_nil e)⟩⟩
    · intro env st t d
      cases t with
      | Ip ip =>
        exact ⟨⟨[], by simp [target_to_ip]⟩,
          ⟨[], by simp [target_to_ip], fun e he => absurd he (List.not_mem_nil e)⟩⟩
      | Name name =>
        exact ⟨⟨[], by simp [target_to_ip]⟩,
          ⟨[], by simp [target_to_ip], fun e he => absurd he (List.not_mem_nil e)⟩⟩
    · intro env st cands n rt d _
      exact ⟨⟨[], by simp [resolve_loop]⟩,
        ⟨[], by simp [resolve_loop], fun e he => absurd he (List.not_mem_nil e)⟩⟩
  | succ f ih =>
    obtain ⟨ihInner, ihTarget, ihLoop⟩ := ih
    have hLoop : ∀ env st cands n rt d, d ≤ MAX_RECURSION_DEPTH →
        (∃ ext, (resolve_loop env (f + 1) st cands n rt d).2.seen = st.seen ++ ext) ∧
        (∃ tx, (resolve_loop env (f + 1) st cands n rt d).2.trace = st.trace ++ tx ∧
          ∀ e ∈ tx, e.1 ≤ MAX_RECURSION_DEPTH) := by
      intro env st cands n rt d hd
      rcases hc : candidatesNext cands with ⟨cr, cands1⟩
      cases cr with
      | error e =>
        exact ⟨⟨[], by simp [resolve_loop, hc]⟩,
          ⟨[], by simp [resolve_loop, hc], fun e he => absurd he (List.not_mem_nil e)⟩⟩
      | ok o =>
        cases o with
        | none =>
          exact ⟨⟨[], by simp [resolve_loop, hc]⟩,
            ⟨[], by simp [resolve_loop, hc], fun e he => absurd he (List.not_mem_nil e)⟩⟩
        | some target =>
          rcases ht : target_to_ip env f st target d with ⟨tr, st1⟩
          obtain ⟨⟨ext1, hs1⟩, ⟨tx1, htr1, hb1⟩⟩ := ihTarget env st target d
          rw [ht] at hs1 htr1
          simp only [Prod.snd] at hs1 htr1
          cases tr with
          | error e =>
            exact ⟨⟨ext1, by simp [resolve_loop, hc, ht, hs1]⟩,
              ⟨tx1, by simp [resolve_loop, hc, ht, htr1], hb1⟩⟩
          | ok ip =>
            have hbtail : ∀ e ∈ tx1 ++ [(d, ip, n, rt)], e.1 ≤ MAX_RECURSION_DEPTH := by
              intro e he
              rcases List.mem_append.mp he with h1 | h2
              · exact hb1 e h1
              · rw [List.mem_singleton.mp h2]
                exact hd
            cases hb : env.backend ip n rt with
            | error e =>
              refine ⟨⟨ext1, by simp [resolve_loop, hc, ht, hb, hs1]⟩,
                ⟨tx1 ++ [(d, ip, n, rt)], ?_, hbtail⟩⟩
              simp [resolve_loop, hc, ht, hb, htr1, List.append_assoc]
            | ok message =>
              by_cases hnx : message.response_code = ResponseCode.NXDomain
              · refine ⟨⟨ext1, by simp [resolve_loop, hc, ht, hb, hnx, hs1]⟩,
                  ⟨tx1 ++ [(d, ip, n, rt)], ?_, hbtail⟩⟩
                simp [resolve_loop, hc, ht, hb, hnx, htr1, List.append_assoc]
              · by_cases hfin : is_final message = true
                · refine ⟨⟨ext1, by simp [resolve_loop, hc, ht, hb, hnx, hfin, hs1]⟩,
                    ⟨tx1 ++ [(d, ip, n, rt)], ?_, hbtail⟩⟩
                  simp [resolve_loop, hc, ht, hb, hnx, hfin, htr1, List.append_assoc]
                · have heq : resolve_loop env (f + 1) st cands n rt d =
                      resolve_loop env f
                        ⟨st1.seen,
                         DnsCache.store_referral st1.cache message.name_servers
                           message.additionals n env.now,
                         st1.trace ++ [(d, ip, n, rt)]⟩
                        (Candidates.nsp (NsProvider.new env.shuffleRecords
                          message.name_servers message.additionals)) n rt d := by
                    simp [resolve_loop, hc, ht, hb, hnx, hfin]
                  obtain ⟨⟨ext2, hs2⟩, ⟨tx2, htr2, hb2⟩⟩ := ihLoop env
                    ⟨st1.seen,
                     DnsCache.store_referral st1.cache message.name_servers
                       message.additionals n env.now,
                     st1.trace ++ [(d, ip, n, rt)]⟩
                    (Candidates.nsp (NsProvider.new env.shuffleRecords
                      message.name_servers message.additionals)) n rt d hd
                  refine ⟨⟨ext1 ++ ext2, ?_⟩, ⟨(tx1 ++ [(d, ip, n, rt)]) ++ tx2, ?_, ?_⟩⟩
                  · rw [heq, hs2]
                    show st1.seen ++ ext2 = st.seen ++ (ext1 ++ ext2)
                    rw [hs1, List.append_assoc]
                  · rw [heq, htr2]
                    show (st1.trace ++ [(d, ip, n, rt)]) ++ tx2 =
                      st.trace ++ ((tx1 ++ [(d, ip, n, rt)]) ++ tx2)
                    rw [htr1]
                    simp [List.append_assoc]
                  · intro e he
                    rcases List.mem_append.mp he with h1 | h2
                    · exact hbtail e h1
                    · exact hb2 e h2
    have hInner : ∀ env st n rt d,
        (∃ ext, (resolve_inner env (f + 1) st n rt d).2.seen = st.seen ++ ext) ∧
        (∃ tx, (resolve_inner env (f + 1) st n rt d).2.trace = st.trace ++ tx ∧
          ∀ e ∈ tx, e.1 ≤ MAX_RECURSION_DEPTH) := by
      intro env st n rt d
      by_cases hd : MAX_RECURSION_DEPTH < d
      · exact ⟨⟨[], by simp [resolve_inner, hd]⟩,
          ⟨[], by simp [resolve_inner, hd], fun e he => absurd he (List.not_mem_nil e)⟩⟩
      · by_cases hs : seenContains st.seen (n, rt) = true
        · exact ⟨⟨[], by simp [resolve_inner, hd, hs]⟩,
            ⟨[], by simp [resolve_inner, hd, hs], fun e he => absurd he (List.not_mem_nil e)⟩⟩
        · have hd2 : d ≤ MAX_RECURSION_DEPTH := Nat.not_lt.mp hd
          rcases hg : DnsCache.get_best_record st.cache ⟨n, rt⟩ env.now with ⟨resp, c1⟩
          cases resp with
          | Authoritative records =>
            exact ⟨⟨[(n, rt)], by simp [resolve_inner, hd, hs, hg]⟩,
              ⟨[], by simp [resolve_inner, hd, hs, hg],
                fun e he => absurd he (List.not_mem_nil e)⟩⟩
          | Referral ns glue =>
            have heq : resolve_inner env (f + 1) st n rt d =
                resolve_loop env f ⟨st.seen ++ [(n, rt)], c1, st.trace⟩
                  (Candidates.nsp (NsProvider.new env.shuffleRecords ns glue)) n rt d := by
              simp [resolve_inner, hd, hs, hg]
            obtain ⟨⟨ext2, hs2⟩, ⟨tx2, htr2, hb2⟩⟩ := ihLoop env
              ⟨st.seen ++ [(n, rt)], c1, st.trace⟩
              (Candidates.nsp (NsProvider.new env.shuffleRecords ns glue)) n rt d hd2
            refine ⟨⟨(n, rt) :: ext2, ?_⟩, ⟨tx2, ?_, hb2⟩⟩
            · rw [heq, hs2]
              show (st.seen ++ [(n, rt)]) ++ ext2 = st.seen ++ ((n, rt) :: ext2)
              simp [List.append_assoc]
            · rw [heq, htr2]
          | None =>
            have heq : resolve_inner env (f + 1) st n rt d =
                resolve_loop env f ⟨st.seen ++ [(n, rt)], c1, st.trace⟩
                  (RootsProvider.new env.shuffleIps env.roots) n rt d := by
              simp [resolve_inner, hd, hs, hg]
            obtain ⟨⟨ext2, hs2⟩, ⟨tx2, htr2, hb2⟩⟩ := ihLoop env
              ⟨st.seen ++ [(n, rt)], c1, st.trace⟩
              (RootsProvider.new env.shuffleIps env.roots) n rt d hd2
            refine ⟨⟨(n, rt) :: ext2, ?_⟩, ⟨tx2, ?_, hb2⟩⟩
            · rw [heq, hs2]
              show (st.seen ++ [(n, rt)]) ++ ext2 = st.seen ++ ((n, rt) :: ext2)
              simp [List.append_assoc]
            · rw [heq, htr2]
    have hTarget : ∀ env st t d,
        (∃ ext, (target_to_ip env (f + 1) st t d).2.seen = st.seen ++ ext) ∧
        (∃ tx, (target_to_ip env (f + 1) st t d).2.trace = st.trace ++ tx ∧
          ∀ e ∈ tx, e.1 ≤ MAX_RECURSION_DEPTH) := by
      intro env st t d
      cases t with
      | Ip ip =>
        exact ⟨⟨[], by simp [target_to_ip]⟩,
          ⟨[], by simp [target_to_ip], fun e he => absurd he (List.not_mem_nil e)⟩⟩
      | Name name =>
        rcases hr : resolve_inner env f st name RecordType.A (d + 1) with ⟨res, st1⟩
        obtain ⟨⟨ext1, hs1⟩, ⟨tx1, htr1, hb1⟩⟩ := ihInner env st name RecordType.A (d + 1)
        rw [hr] at hs1 htr1
        simp only [Prod.snd] at hs1 htr1
        cases res with
        | error e =>
          exact ⟨⟨ext1, by simp [target_to_ip, hr, hs1]⟩,
            ⟨tx1, by simp [target_to_ip, hr, htr1], hb1⟩⟩
        | ok records =>
          exact ⟨⟨ext1, by simp [target_to_ip, hr, hs1]⟩,
            ⟨tx1, by simp [target_to_ip, hr, htr1], hb1⟩⟩
    exact ⟨hInner, hTarget, hLoop⟩

/-- C7: on entry, resolve_inner returns a ServFail without touching the
state (hence without contacting any backend) whenever the (name, type) pair
of the current query is already in the seen list; on an entry that passes
the guards the seen list grows strictly, with the current pair appended
before anything else. -/
theorem resolve_inner_seen_behavior (env : ResEnv) (fuel : Nat) (st : ResState)
    (n : DnsName) (rt : RecordType) (d : Nat) (hf : 0 < fuel) :
    (seenContains st.seen (n, rt) = true →
      isServFail (resolve_inner env fuel st n rt d).1 ∧
      (resolve_inner env fuel st n rt d).2 = st) ∧
    (seenContains st.seen (n, rt) = false → d ≤ MAX_RECURSION_DEPTH →
      ∃ ext, (resolve_inner env fuel st n rt d).2.seen = st.seen ++ (n, rt) :: ext) := by
  obtain ⟨f, rfl⟩ : ∃ f, fuel = f + 1 := ⟨fuel - 1, by omega⟩
  constructor
  · intro hs
    by_cases hd : MAX_RECURSION_DEPTH < d
    · have h1 : resolve_inner env (f + 1) st n rt d =
          (Except.error (ResolutionError.ServFail (r"Refusing to recurse deeper than 5")), st) := by
        simp [resolve_inner, hd]
      exact ⟨⟨_, by rw [h1]⟩, by rw [h1]⟩
    · have h1 : resolve_inner env (f + 1) st n rt d =
          (Except.error (ResolutionError.ServFail (r"Broken DNS config, seen twice")), st) := by
        simp [resolve_inner, hd, hs]
      exact ⟨⟨_, by rw [h1]⟩, by rw [h1]⟩
  · intro hs hd2
    have hd : ¬ (MAX_RECURSION_DEPTH < d) := Nat.not_lt.mpr hd2
    rcases hg : DnsCache.get_best_record st.cache ⟨n, rt⟩ env.now with ⟨resp, c1⟩
    cases resp with
    | Authoritative records =>
      exact ⟨[], by simp [resolve_inner, hd, hs, hg]⟩
    | Referral ns glue =>
      have heq : resolve_inner env (f + 1) st n rt d =
          resolve_loop env f ⟨st.seen ++ [(n, rt)], c1, st.trace⟩
            (Candidates.nsp (NsProvider.new env.shuffleRecords ns glue)) n rt d := by
        simp [resolve_inner, hd, hs, hg]
      obtain ⟨⟨ext2, hs2⟩, _⟩ := (resolve_state_evolution f).2.2 env
        ⟨st.seen ++ [(n, rt)], c1, st.trace⟩
        (Candidates.nsp (NsProvider.new env.shuffleRecords ns glue)) n rt d hd2
      refine ⟨ext2, ?_⟩
      rw [heq, hs2]
      show (st.seen ++ [(n, rt)]) ++ ext2 = st.seen ++ (n, rt) :: ext2
      simp [List.append_assoc]
    | None =>
      have heq : resolve_inner env (f + 1) st n rt d =
          resolve_loop env f ⟨st.seen ++ [(n, rt)], c1, st.trace⟩
            (RootsProvider.new env.shuffleIps env.roots) n rt d := by
        simp [resolve_inner, hd, hs, hg]
      obtain ⟨⟨ext2, hs2⟩, _⟩ := (resolve_state_evolution f).2.2 env
        ⟨st.seen ++ [(n, rt)], c1, st.trace⟩
        (RootsProvider.new env.shuffleIps env.roots) n rt d hd2
      refine ⟨ext2, ?_⟩
      rw [heq, hs2]
      show (st.seen ++ [(n, rt)]) ++ ext2 = st.seen ++ (n, rt) :: ext2
      simp [List.append_assoc]

/-- C7 witness: with (example.com, A) pre-seeded in the seen list the
resolution fails with ServFail and the state (including the backend call
log) is untouched; with a fresh seen list the pair is appended. -/
theorem resolve_inner_seen_behavior_witness :
    (isServFail (resolve_inner failEnv 1 seenState exName RecordType.A 1).1 ∧
      (resolve_inner failEnv 1 seenState exName RecordType.A 1).2 = seenState) ∧
    ∃ ext, (resolve_inner failEnv 2 freshState exName RecordType.A 1).2.seen =
      freshState.seen ++ (exName, RecordType.A) :: ext := by
  constructor
  · exact (resolve_inner_seen_behavior failEnv 1 seenState exName RecordType.A 1
      (by decide)).1 (by decide)
  · exact (resolve_inner_seen_behavior failEnv 2 freshState exName RecordType.A 1
      (by decide)).2 (by decide) (by decide)

/-- C8: a call of resolve_inner with depth greater than MAX_RECURSION_DEPTH
(5) returns ServFail immediately with the state untouched, and every
backend call made by a top-level resolve (which starts at depth 1) is made
at a depth of at most MAX_RECURSION_DEPTH. -/
theorem resolve_depth_bounded (env : ResEnv) (fuel : Nat) (st : ResState) (cache : DnsCache)
    (n : DnsName) (rt : RecordType) (d : Nat) (hf : 0 < fuel)
    (hd : MAX_RECURSION_DEPTH < d) :
    isServFail (resolve_inner env fuel st n rt d).1 ∧
    (resolve_inner env fuel st n rt d).2 = st ∧
    ∀ e ∈ (resolve env fuel cache n rt).2.trace, e.1 ≤ MAX_RECURSION_DEPTH := by
  obtain ⟨f, rfl⟩ : ∃ f, fuel = f + 1 := ⟨fuel - 1, by omega⟩
  have h1 : resolve_inner env (f + 1) st n rt d =
      (Except.error (ResolutionError.ServFail (r"Refusing to recurse deeper than 5")), st) := by
    simp [resolve_inner, hd]
  refine ⟨⟨_, by rw [h1]⟩, by rw [h1], ?_⟩
  obtain ⟨_, ⟨tx, htr, hbound⟩⟩ := (resolve_state_evolution (f + 1)).1 env
    ⟨[], cache, []⟩ n rt 1
  intro e he
  have he2 : e ∈ tx := by
    have : (resolve env (f + 1) cache n rt).2.trace = tx := by
      rw [show resolve env (f + 1) cache n rt =
        resolve_inner env (f + 1) ⟨[], cache, []⟩ n rt 1 from rfl, htr]
      simp
    rw [this] at he
    exact he
  exact hbound e he2

/-- C8 witness: at depth 6 with fuel available, resolve_inner fails with
ServFail and leaves the state untouched; the trace bound is instantiated on
a resolve run against the always-failing backend. -/
theorem resolve_depth_bounded_witness :
    isServFail (resolve_inner failEnv 1 freshState exName RecordType.A 6).1 ∧
    (resolve_inner failEnv 1 freshState exName RecordType.A 6).2 = freshState := by
  have h := resolve_depth_bounded failEnv 1 freshState emptyDnsCache exName RecordType.A 6
    (by decide) (by decide)
  exact ⟨h.1, h.2.1⟩

theorem find?_congr {α : Type} (p q : α → Bool) (l : List α) (h : ∀ x, p x = q x) :
    l.find? p = l.find? q := by
  rw [funext h]

theorem find?_filter_disj {α : Type} (p q : α → Bool) (l : List α)
    (h : ∀ x, p x = true → q x = false) :
    (l.filter (fun x => !(q x))).find? p = l.find? p := by
  induction l with
  | nil => rfl
  | cons a t ih =>
    by_cases hq : q a = true
    · have hp : p a = false := by
        cases hpa : p a
        · rfl
        · rw [h a hpa] at hq
          cases hq
      simp [List.filter_cons, hq, List.find?_cons, hp, ih]
    · have hq2 : q a = false := by
        cases hqa : q a
        · rfl
        · exact absurd hqa hq
      cases hpa : p a <;> simp [List.filter_cons, hq2, List.find?_cons, hpa, ih]

theorem find?_eraseP_disj {α : Type} (p q : α → Bool) (l : List α)
    (h : ∀ x, q x = true → p x = false) :
    (l.eraseP q).find? p = l.find? p := by
  induction l with
  | nil => rfl
  | cons a t ih =>
    by_cases hq : q a = true
    · have hp : p a = false := h a hq
      simp [List.eraseP_cons, hq, List.find?_cons, hp]
    · have hq2 : q a = false := by
        cases hqa : q a
        · rfl
        · exact absurd hqa hq
      cases hpa : p a <;> simp [List.eraseP_cons, hq2, List.find?_cons, hpa, ih]

theorem rawView_eq (c : DnsCache) (q : Query) (now : Nat) :
    rawView c q now =
      match c.entries.find? (fun p => p.1 == q) with
      | none => none
      | some p =>
        if p.2.valid_before < now then none
        else some (p.2.value, p.2.valid_before - now) := by
  unfold rawView Cache.get_with_remaining_ttl
  cases hf : c.entries.find? (fun p => p.1 == q) with
  | none => rfl
  | some p => by_cases hex : p.2.valid_before < now <;> simp [hex]

theorem get_preserves_views (c : DnsCache) (k : Query) (now : Nat) (k2 : Query) :
    rawView (Cache.get_with_remaining_ttl c k now).2 k2 now = rawView c k2 now := by
  rw [rawView_eq, rawView_eq]
  unfold Cache.get_with_remaining_ttl
  cases hf : c.entries.find? (fun p => p.1 == k) with
  | none => rfl
  | some p =>
    have hpk : (p.1 == k) = true := by
      have h0 := List.find?_some hf
      simpa using h0
    by_cases hkk : canonQ k = canonQ k2
    · have hpt : ∀ x : Query × ValueWithTTL (List Record), ((x.1 == k2) : Bool) = (x.1 == k) := by
        intro x
        show queryBeq x.1 k2 = queryBeq x.1 k
        simp [queryBeq, hkk]
      have hR : c.entries.find? (fun p2 => p2.1 == k2) = some p := by
        rw [find?_congr _ _ _ hpt]
        exact hf
      by_cases hex : p.2.valid_before < now
      · have hL : (c.entries.filter (fun q2 => !(q2.1 == k))).find? (fun p2 => p2.1 == k2) =
            none := by
          rw [find?_congr _ _ _ hpt]
          exact find?_filter_not_self _ _
        simp [hex, hL, hR]
      · have hpk2 : (p.1 == k2) = true := by
          rw [hpt p]
          exact hpk
        have hL : ((p :: c.entries.eraseP (fun q2 => q2.1 == k)).find?
            (fun p2 => p2.1 == k2)) = some p := by
          simp [List.find?_cons, hpk2]
        simp [hex, hL, hR]
    · have hdisj : ∀ x : Query × ValueWithTTL (List Record),
          (x.1 == k2) = true → (x.1 == k) = false := by
        intro x hx
        cases hxk : ((x.1 == k) : Bool)
        · rfl
        · have h2 : canonQ x.1 = canonQ k2 := (queryBeq_iff _ _).mp hx
          have h3 : canonQ x.1 = canonQ k := (queryBeq_iff _ _).mp hxk
          exact absurd (h3 ▸ h2) hkk
      by_cases hex : p.2.valid_before < now
      · have hL : (c.entries.filter (fun q2 => !(q2.1 == k))).find? (fun p2 => p2.1 == k2) =
            c.entries.find? (fun p2 => p2.1 == k2) := find?_filter_disj _ _ _ hdisj
        simp only [hex, if_true, hL]
      · have hdisj2 : ∀ x : Query × ValueWithTTL (List Record),
            (x.1 == k) = true → (x.1 == k2) = false := by
          intro x hx
          cases hxk : ((x.1 == k2) : Bool)
          · rfl
          · have h2 : canonQ x.1 = canonQ k := (queryBeq_iff _ _).mp hx
            have h3 : canonQ x.1 = canonQ k2 := (queryBeq_iff _ _).mp hxk
            exact absurd (h2 ▸ h3) hkk
        have hpk2 : (p.1 == k2) = false := hdisj2 p hpk
        have hL : ((p :: c.entries.eraseP (fun q2 => q2.1 == k)).find?
            (fun p2 => p2.1 == k2)) = c.entries.find? (fun p2 => p2.1 == k2) := by
          rw [List.find?_cons]
          rw [hpk2]
          exact find?_eraseP_disj _ _ _ hdisj2
        simp only [hex, if_false, hL]

theorem viewsAgree_trans {a b c : DnsCache} {now : Nat} (h1 : viewsAgree a b now)
    (h2 : viewsAgree b c now) : viewsAgree a c now :=
  fun q => (h1 q).trans (h2 q)

theorem get_and_update_viewsAgree (c : DnsCache) (k : Query) (now : Nat) :
    viewsAgree (DnsCache.get_and_update_ttl c k now).2 c now := by
  rw [get_and_update_snd]
  exact fun k2 => get_preserves_views c k now k2

theorem lookup_records_eq_rawView (c : DnsCache) (q : Query) (now : Nat) :
    lookup_records c q now = (rawView c q now).map update_ttl := rfl

theorem lookup_viewsAgree {c1 c2 : DnsCache} {now : Nat} (h : viewsAgree c1 c2 now)
    (q : Query) : lookup_records c1 q now = lookup_records c2 q now := by
  rw [lookup_records_eq_rawView, lookup_records_eq_rawView, h q]

theorem fetch_glue_spec (ns : List Record) (c c0 : DnsCache) (now : Nat)
    (h : viewsAgree c c0 now) :
    (DnsCache.fetch_glue c ns now).1 = glue_spec c0 ns now := by
  induction ns generalizing c with
  | nil => simp [DnsCache.fetch_glue, glue_spec]
  | cons r rest ih =>
    cases hn : get_ns_name r with
    | error e =>
      simp [DnsCache.fetch_glue, glue_spec, List.flatMap_cons, hn, ih c h]
    | ok t =>
      have hl : (DnsCache.get_and_update_ttl c ⟨t, RecordType.A⟩ now).1 =
          lookup_records c0 ⟨t, RecordType.A⟩ now := lookup_viewsAgree h _
      rcases hg : DnsCache.get_and_update_ttl c ⟨t, RecordType.A⟩ now with ⟨o, c1⟩
      have ho : lookup_records c0 ⟨t, RecordType.A⟩ now = o := by
        rw [← hl, hg]
      have h1 : viewsAgree c1 c0 now := by
        have h2 := get_and_update_viewsAgree c ⟨t, RecordType.A⟩ now
        rw [hg] at h2
        exact viewsAgree_trans h2 h
      cases o with
      | some records =>
        rcases hfr : DnsCache.fetch_glue c1 rest now with ⟨rr, c2⟩
        have hrr : rr = glue_spec c0 rest now := by
          have h3 := ih c1 h1
          rw [hfr] at h3
          exact h3
        simp [DnsCache.fetch_glue, glue_spec, List.flatMap_cons, hn, hg, hfr, hrr, ho]
      | none =>
        simp [DnsCache.fetch_glue, glue_spec, List.flatMap_cons, hn, hg, ih c1 h1, ho]

theorem getBestLoop_spec (ps : List DnsName) (c c0 : DnsCache) (now : Nat)
    (h : viewsAgree c c0 now) :
    (getBestLoop c ps now).1 =
      match ps.findSome? (fun p => lookup_records c0 ⟨p, RecordType.NS⟩ now) with
      | some records => CacheResponse.Referral records (glue_spec c0 records now)
      | none => CacheResponse.None := by
  induction ps generalizing c with
  | nil => simp [getBestLoop]
  | cons p rest ih =>
    have hl : (DnsCache.get_and_update_ttl c ⟨p, RecordType.NS⟩ now).1 =
        lookup_records c0 ⟨p, RecordType.NS⟩ now := lookup_viewsAgree h _
    rcases hg : DnsCache.get_and_update_ttl c ⟨p, RecordType.NS⟩ now with ⟨o, c1⟩
    have ho : lookup_records c0 ⟨p, RecordType.NS⟩ now = o := by
      rw [← hl, hg]
    have h1 : viewsAgree c1 c0 now := by
      have h2 := get_and_update_viewsAgree c ⟨p, RecordType.NS⟩ now
      rw [hg] at h2
      exact viewsAgree_trans h2 h
    cases o with
    | some records =>
      rcases hfg : DnsCache.fetch_glue c1 records now with ⟨gl, c2⟩
      have hgl : gl = glue_spec c0 records now := by
        have h3 := fetch_glue_spec records c1 c0 now h1
        rw [hfg] at h3
        exact h3
      simp [getBestLoop, hg, hfg, List.findSome?_cons, ho, hgl]
    | none =>
      simp [getBestLoop, hg, List.findSome?_cons, ho, ih c1 h1]

theorem parentsLoop_eq (xs : List String) :
    parentsLoop xs = (List.range xs.length).map (fun k => xs.drop k) := by
  induction xs with
  | nil => rfl
  | cons x t ih =>
    simp only [parentsLoop, ih, List.length_cons, List.range_succ_eq_map, List.map_cons,
      List.map_map, List.drop_zero]
    exact congrArg (List.cons (x :: t)) (List.map_congr_left (fun k _ => rfl))

theorem parents_eq_strict_ancestors (n : DnsName) : parents n = strict_ancestors n := by
  cases n with
  | nil => rfl
  | cons x t =>
    show parentsLoop t = strict_ancestors (x :: t)
    rw [parentsLoop_eq]
    unfold strict_ancestors
    simp only [List.length_cons, Nat.add_sub_cancel, List.range'_eq_map_range, List.map_map]
    apply List.map_congr_left
    intro k _
    show t.drop k = (x :: t).drop (1 + k)
    rw [Nat.add_comm]
    rfl

/-- C3: get_best_record first tries an exact lookup of the query and on a
hit returns Authoritative of the (ttl-rewritten) records; otherwise it
walks the strict ancestors of the query name from most specific to least
specific (stopping before the root), issues an NS lookup for each, and the
first hit gives Referral(ns, glue) where glue is built per NS record by
extracting its target name, looking up (target, A) and concatenating the
records found; if no ancestor hits it returns None. -/
theorem get_best_record_matches_spec (c : DnsCache) (q : Query) (now : Nat) :
    (DnsCache.get_best_record c q now).1 = get_best_record_spec c q now := by
  rcases hg : DnsCache.get_and_update_ttl c q now with ⟨o, c1⟩
  have ho : lookup_records c q now = o := by
    show (DnsCache.get_and_update_ttl c q now).1 = o
    rw [hg]
  cases o with
  | some records =>
    simp [DnsCache.get_best_record, get_best_record_spec, hg, ho]
  | none =>
    have h1 : viewsAgree c1 c now := by
      have h2 := get_and_update_viewsAgree c q now
      rw [hg] at h2
      exact h2
    simp only [DnsCache.get_best_record, hg]
    rw [getBestLoop_spec (parents q.to_resolve) c1 c now h1,
      parents_eq_strict_ancestors]
    simp [get_best_record_spec, ho]

end DnsRes
